import Mathlib

/-!
Verification of the OSM entity store and multipolygon assembler of
`src/include/osm_store.h` (tilemaker).

The C++ stores are shallowly embedded:

* `boost::unordered_map` values become association lists; `emplace` keeps
  an existing binding (no overwrite) and returns the stored value, exactly
  as the C++ `emplace` does.
* `NodeStoreCompact` backs onto a `std::vector<LatpLon>`; it is a plain
  `List LatpLon` indexed positionally.
* Exceptions (`std::out_of_range`, lookup failures) are `Option`/`none`.
* The `mergeMultiPolygonWays` do/while loop is embedded with explicit fuel;
  its termination theorem shows the fuel used by the top-level wrapper is
  always sufficient.
* The `perform_mmap_operation` retry loop is embedded over an abstract
  capacity-indexed operation; `boost::interprocess::bad_alloc` is the
  `outOfSpace` error.
-/

abbrev NodeID := Nat

abbrev WayID := Int

/-- A latp/lon pair, two 32-bit integers in the source (`coordinates.h`). -/
structure LatpLon where
  latp : Int
  lon : Int
deriving DecidableEq, Repr

/-- The value-initialised `LatpLon()` used by `NodeStoreCompact::clear`. -/
def LatpLon.zero : LatpLon := ⟨0, 0⟩

/-- Association-list lookup, modelling `unordered_map::at` (found case). -/
def assocFind {κ ν : Type} [DecidableEq κ] : List (κ × ν) → κ → Option ν
  | [], _ => none
  | (k, v) :: rest, key => if k = key then some v else assocFind rest key

/-- `unordered_map::emplace`: keep the existing binding if the key is
present and return it, otherwise add the new binding and return it. -/
def assocEmplace {κ ν : Type} [DecidableEq κ] (m : List (κ × ν)) (k : κ) (v : ν) :
    List (κ × ν) × ν :=
  match assocFind m k with
  | some old => (m, old)
  | none => (m ++ [(k, v)], v)

/-- Sparse node store (`NodeStore`, osm_store.h:96): an arena-allocated
`unordered_map<NodeID, LatpLon>`. -/
structure NodeStore where
  mLatpLons : List (NodeID × LatpLon)
deriving DecidableEq, Repr

/-- `NodeStore::insert_back` (osm_store.h:110): `mLatpLons->emplace(i, coord)`. -/
def NodeStore.insert_back (s : NodeStore) (i : NodeID) (coord : LatpLon) : NodeStore :=
  ⟨(assocEmplace s.mLatpLons i coord).1⟩

/-- `NodeStoreBase::at` (osm_store.h:69): `none` models the thrown
`std::out_of_range`. -/
def NodeStore.at (s : NodeStore) (i : NodeID) : Option LatpLon :=
  assocFind s.mLatpLons i

/-- `NodeStoreBase::count` (osm_store.h:82). -/
def NodeStore.count (s : NodeStore) (i : NodeID) : Nat :=
  match assocFind s.mLatpLons i with
  | some _ => 1
  | none => 0

/-- `NodeStoreBase::size` (osm_store.h:87). -/
def NodeStore.size (s : NodeStore) : Nat := s.mLatpLons.length

/-- `NodeStore::clear` (osm_store.h:115). -/
def NodeStore.clear (_ : NodeStore) : NodeStore := ⟨[]⟩

/-- Compact node store (`NodeStoreCompact`, osm_store.h:120): a
`std::vector<LatpLon>` indexed by the node id. -/
structure NodeStoreCompact where
  mLatpLons : List LatpLon
deriving DecidableEq, Repr

/-- `NodeStoreCompact::at` (osm_store.h:137): out-of-range ids throw. -/
def NodeStoreCompact.at (s : NodeStoreCompact) (i : NodeID) : Option LatpLon :=
  s.mLatpLons[i]?

/-- `NodeStoreCompact::reserve` (osm_store.h:146): `vector::resize(nodes)`,
keeping the existing prefix and zero-filling new slots. -/
def NodeStoreCompact.reserve (s : NodeStoreCompact) (nodes : Nat) : NodeStoreCompact :=
  ⟨s.mLatpLons.take nodes ++ List.replicate (nodes - s.mLatpLons.length) LatpLon.zero⟩

/-- `NodeStoreCompact::insert_back` (osm_store.h:160): writes
`(*mLatpLons)[i] = coord`, throwing (`none`) when `i` is out of range. -/
def NodeStoreCompact.insert_back (s : NodeStoreCompact) (i : NodeID) (coord : LatpLon) :
    Option NodeStoreCompact :=
  if i < s.mLatpLons.length then some ⟨s.mLatpLons.set i coord⟩ else none

/-- `NodeStoreCompact::size` (osm_store.h:169): the vector length, which
`clear` does not change. -/
def NodeStoreCompact.size (s : NodeStoreCompact) : Nat := s.mLatpLons.length

/-- `NodeStoreCompact::clear` (osm_store.h:172): `std::fill` with
`LatpLon()`; the vector keeps its length. -/
def NodeStoreCompact.clear (s : NodeStoreCompact) : NodeStoreCompact :=
  ⟨s.mLatpLons.map (fun _ => LatpLon.zero)⟩

/-- Way store (`WayStore<NodeID>`, osm_store.h:179): an arena-allocated
`unordered_map<WayID, vector<NodeID>>`. -/
structure WayStore where
  mNodeLists : List (WayID × List NodeID)
deriving DecidableEq, Repr

/-- `WayStore::at` (osm_store.h:205): `none` models the thrown
`std::out_of_range`. -/
def WayStore.at (s : WayStore) (i : WayID) : Option (List NodeID) :=
  assocFind s.mNodeLists i

/-- `WayStore::count` (osm_store.h:219). -/
def WayStore.count (s : WayStore) (i : WayID) : Nat :=
  match assocFind s.mNodeLists i with
  | some _ => 1
  | none => 0

/-- `WayStore::insert_back` (osm_store.h:229): `emplace` the node vector
and return `result.first->second`, the stored vector — the pre-existing
one when the id was already present. -/
def WayStore.insert_back (s : WayStore) (i : WayID) (nodes : List NodeID) :
    WayStore × List NodeID :=
  let r := assocEmplace s.mNodeLists i nodes
  (⟨r.1⟩, r.2)

/-- `WayStore::clear` (osm_store.h:237). -/
def WayStore.clear (_ : WayStore) : WayStore := ⟨[]⟩

/-- `WayStore::size` (osm_store.h:239). -/
def WayStore.size (s : WayStore) : Nat := s.mNodeLists.length

/-- Relation store (`RelationStore`, osm_store.h:247): map from pseudo way
id to the pair (outer way list, inner way list). -/
structure RelationStore where
  mOutInLists : List (WayID × (List WayID × List WayID))
deriving DecidableEq, Repr

/-- `RelationStore::insert_front` (osm_store.h:297): an `emplace`. -/
def RelationStore.insert_front (s : RelationStore) (i : WayID)
    (outerWayVec innerWayVec : List WayID) : RelationStore × (List WayID × List WayID) :=
  let r := assocEmplace s.mOutInLists i (outerWayVec, innerWayVec)
  (⟨r.1⟩, r.2)

/-- `RelationStore::at`. -/
def RelationStore.at (s : RelationStore) (i : WayID) : Option (List WayID × List WayID) :=
  assocFind s.mOutInLists i

/-- `RelationStore::clear`. -/
def RelationStore.clear (_ : RelationStore) : RelationStore := ⟨[]⟩

/-- `RelationStore::size`. -/
def RelationStore.size (s : RelationStore) : Nat := s.mOutInLists.length

/-- `OSMStore::wayIsClosed` (osm_store.h:498):
`way.empty() || (way.front() == way.back())`. -/
def wayIsClosed (way : List NodeID) : Bool :=
  way.isEmpty || decide (way.headD 0 = way.getLastD 0)

/-- The façade state of `OSMStoreImpl<NodeStoreCompact>` (osm_store.h:709):
one node store, the way and relation stores, and the mmap size. -/
structure OSMStoreImplCompact where
  nodes : NodeStoreCompact
  ways : WayStore
  relations : RelationStore
  map_size : Nat
deriving DecidableEq, Repr

/-- `OSMStoreImpl::clear` (osm_store.h:738) for the compact variant:
clears the three entity stores and leaves the arena untouched. -/
def OSMStoreImplCompact.clear (s : OSMStoreImplCompact) : OSMStoreImplCompact :=
  { s with
    nodes := s.nodes.clear
    ways := s.ways.clear
    relations := s.relations.clear }

/-- The façade state of `OSMStoreImpl<NodeStore>` (sparse variant). -/
structure OSMStoreImplSparse where
  nodes : NodeStore
  ways : WayStore
  relations : RelationStore
  map_size : Nat
deriving DecidableEq, Repr

/-- `OSMStoreImpl::clear` (osm_store.h:738) for the sparse variant. -/
def OSMStoreImplSparse.clear (s : OSMStoreImplSparse) : OSMStoreImplSparse :=
  { s with
    nodes := s.nodes.clear
    ways := s.ways.clear
    relations := s.relations.clear }

/-- `isClosed` on a `NodeList` view (osm_store.h:33):
`*way.begin == *std::prev(way.end)` (undefined on an empty way; the model
reads default 0s there). -/
def isClosed (way : List NodeID) : Bool :=
  decide (way.headD 0 = way.getLastD 0)

/-- `ot->front()` on a chain. -/
def chainFirst (c : List NodeID) : NodeID := c.headD 0

/-- `ot->back()` on a chain. -/
def chainLast (c : List NodeID) : NodeID := c.getLastD 0

/-- The inner `for (auto ot = results.begin(); ...)` loop of
`mergeMultiPolygonWays` (osm_store.h:637): try to join the open way
`nodes` to the first matching chain, returning the updated chain list on
success. `jFirst==jLast` makes every iteration `continue`. The four join
cases insert the full node range of the way (`nodes.begin` to
`nodes.end`), including the shared endpoint. -/
def tryJoin (nodes : List NodeID) : List (List NodeID) → Option (List (List NodeID))
  | [] => none
  | ot :: rest =>
    let jFirst := chainFirst nodes
    let jLast := chainLast nodes
    let oFirst := chainFirst ot
    let oLast := chainLast ot
    if jFirst = jLast then
      match tryJoin nodes rest with
      | some rest₂ => some (ot :: rest₂)
      | none => none
    else if oLast = jFirst then some ((ot ++ nodes) :: rest)
    else if oLast = jLast then some ((ot ++ nodes.reverse) :: rest)
    else if jLast = oFirst then some ((nodes ++ ot) :: rest)
    else if jFirst = oFirst then some ((nodes.reverse ++ ot) :: rest)
    else
      match tryJoin nodes rest with
      | some rest₂ => some (ot :: rest₂)
      | none => none

/-- The state threaded through `mergeMultiPolygonWays`: the chain list
`results` and the `done` map (membership = mapped to `true`). -/
structure MergeState where
  results : List (List NodeID)
  done : List WayID
deriving DecidableEq, Repr

/-- The body of the `for (auto it = itBegin; ...)` loop of
`mergeMultiPolygonWays` (osm_store.h:623) for a single way id: skip done
ways, emit closed ways as standalone chains, otherwise try to join;
`none` models the `std::out_of_range` thrown by `ways.at`. -/
def mergeStep (ways : WayID → Option (List NodeID)) (s : MergeState) (added : Nat)
    (i : WayID) : Option (MergeState × Nat) :=
  if i ∈ s.done then some (s, added)
  else
    match ways i with
    | none => none
    | some way =>
      if isClosed way then
        some (⟨s.results ++ [way], i :: s.done⟩, added + 1)
      else
        match tryJoin way s.results with
        | some results₂ => some (⟨results₂, i :: s.done⟩, added + 1)
        | none => some (s, added)

/-- One full pass over the way ids (the `for` loop at osm_store.h:623),
accumulating `added`. -/
def mergePass (ways : WayID → Option (List NodeID)) :
    List WayID → MergeState → Nat → Option (MergeState × Nat)
  | [], s, added => some (s, added)
  | i :: rest, s, added =>
    match mergeStep ways s added i with
    | none => none
    | some (s₂, added₂) => mergePass ways rest s₂ added₂

/-- The seeding loop (osm_store.h:671): when a pass added nothing, emit
the first remaining way as a fresh chain. Returns how many ways it added
(0 or 1). -/
def mergeSeed (ways : WayID → Option (List NodeID)) :
    List WayID → MergeState → Option (MergeState × Nat)
  | [], s => some (s, 0)
  | i :: rest, s =>
    if i ∈ s.done then mergeSeed ways rest s
    else
      match ways i with
      | none => none
      | some way => some (⟨s.results ++ [way], i :: s.done⟩, 1)

/-- The `do { ... } while (added > 0)` loop of `mergeMultiPolygonWays`
(osm_store.h:621), with explicit fuel bounding the number of iterations. -/
def mergeLoop (ways : WayID → Option (List NodeID)) (ids : List WayID) :
    Nat → MergeState → Option MergeState
  | 0, _ => none
  | fuel + 1, s =>
    match mergePass ways ids s 0 with
    | none => none
    | some (s₁, added₁) =>
      if added₁ = 0 then
        match mergeSeed ways ids s₁ with
        | none => none
        | some (s₂, added₂) =>
          if added₂ = 0 then some s₂
          else mergeLoop ways ids fuel s₂
      else mergeLoop ways ids fuel s₁

/-- `OSMStore::mergeMultiPolygonWays` (osm_store.h:618). The C++ loop
needs at most `ids.length + 1` iterations (each iteration but the last
marks at least one way done), which the termination theorem below makes
precise. -/
def mergeMultiPolygonWays (ways : WayID → Option (List NodeID)) (ids : List WayID)
    (s : MergeState) : Option MergeState :=
  mergeLoop ways ids (ids.length + 1) s

/-- `OSMStore::fillPoints` (osm_store.h:700): for each node id, look the
node up (`nodes_at`, which throws on a missing id — `none` here) and push
the point `(lon/10000000.0, latp/10000000.0)`. Coordinates are exact
rationals in the model. -/
def fillPoints (nodesAt : NodeID → Option LatpLon) : List NodeID → Option (List (ℚ × ℚ))
  | [] => some []
  | i :: rest =>
    match nodesAt i with
    | none => none
    | some ll =>
      match fillPoints nodesAt rest with
      | none => none
      | some pts => some (((ll.lon : ℚ) / 10000000, (ll.latp : ℚ) / 10000000) :: pts)

/-- `OSMStore::nodeListLinestring` (osm_store.h:490) on the node sequence
a way handle resolves to. -/
def nodeListLinestring (nodesAt : NodeID → Option LatpLon) (way : List NodeID) :
    Option (List (ℚ × ℚ)) :=
  fillPoints nodesAt way

/-- Errors of the store: `outOfSpace` is `boost::interprocess::bad_alloc`;
`other n` stands for any distinct exception type. -/
inductive MmapError where
  | outOfSpace : MmapError
  | other : Nat → MmapError
deriving DecidableEq, Repr

/-- `OSMStore::perform_mmap_operation` (osm_store.h:407): run `op` at the
current arena capacity; on `bad_alloc` grow the file by `map_size` (so the
capacity doubles) and retry; any other exception propagates. The C++
`while(true)` is given explicit fuel; the retry theorem shows enough fuel
always exists. -/
def perform_mmap_operation {α : Type} :
    Nat → (Nat → Except MmapError α) → Nat → Except MmapError (α × Nat)
  | 0, _, _ => .error .outOfSpace
  | fuel + 1, op, map_size =>
    match op map_size with
    | .ok a => .ok (a, map_size)
    | .error .outOfSpace => perform_mmap_operation fuel op (2 * map_size)
    | .error e => .error e

/-- A sequence of `insert_back` calls on the sparse node store. -/
def NodeStore.insertSeq (s : NodeStore) (ops : List (NodeID × LatpLon)) : NodeStore :=
  ops.foldl (fun t p => t.insert_back p.1 p.2) s

/-- A sequence of attempted `insert_back` calls on the compact node store;
an out-of-range insert throws without touching the vector, so the state is
kept. -/
def NodeStoreCompact.insertSeq (s : NodeStoreCompact) (ops : List (NodeID × LatpLon)) :
    NodeStoreCompact :=
  ops.foldl (fun t p => (t.insert_back p.1 p.2).getD t) s

section AssocLemmas

variable {κ ν : Type} [DecidableEq κ]

theorem assocFind_append_of_found (m l : List (κ × ν)) (k : κ) (v : ν)
    (h : assocFind m k = some v) : assocFind (m ++ l) k = some v := by
  induction m with
  | nil => simp [assocFind] at h
  | cons p rest ih =>
    rw [List.cons_append]
    cases p with
    | mk pk pv =>
      by_cases hk : pk = k
      · simp [assocFind, hk] at h ⊢
        exact h
      · simp [assocFind, hk] at h ⊢
        exact ih h

theorem assocFind_append_self (m : List (κ × ν)) (k : κ) (v : ν)
    (h : assocFind m k = none) : assocFind (m ++ [(k, v)]) k = some v := by
  induction m with
  | nil => simp [assocFind]
  | cons p rest ih =>
    rw [List.cons_append]
    cases p with
    | mk pk pv =>
      by_cases hk : pk = k
      · simp [assocFind, hk] at h
      · simp [assocFind, hk] at h ⊢
        exact ih h

theorem assocEmplace_found (m : List (κ × ν)) (k : κ) (v old : ν)
    (h : assocFind m k = some old) : assocEmplace m k v = (m, old) := by
  unfold assocEmplace
  rw [h]

theorem assocEmplace_fresh (m : List (κ × ν)) (k : κ) (v : ν)
    (h : assocFind m k = none) : assocEmplace m k v = (m ++ [(k, v)], v) := by
  unfold assocEmplace
  rw [h]

end AssocLemmas

/-- A binding present in the sparse node store survives any later
`insert_back`: `emplace` never overwrites, and fresh keys are appended. -/
theorem NodeStore.at_insert_back (s : NodeStore) (i j : NodeID) (v c : LatpLon)
    (h : s.at i = some v) : (s.insert_back j c).at i = some v := by
  unfold NodeStore.insert_back NodeStore.at assocEmplace
  unfold NodeStore.at at h
  cases hfind : assocFind s.mLatpLons j with
  | some old => simpa using h
  | none => simpa using assocFind_append_of_found _ [(j, c)] i v h

theorem NodeStore.at_insertSeq (s : NodeStore) (i : NodeID) (v : LatpLon)
    (ops : List (NodeID × LatpLon)) (h : s.at i = some v) :
    (s.insertSeq ops).at i = some v := by
  induction ops generalizing s with
  | nil => exact h
  | cons p rest ih => exact ih _ (NodeStore.at_insert_back s i p.1 v p.2 h)

/-- A slot of the compact node store survives any later attempted
`insert_back` at a different index. -/
theorem NodeStoreCompact.at_insert_other (s : NodeStoreCompact) (i j : NodeID)
    (v c : LatpLon) (h : s.at i = some v) (hij : j ≠ i) :
    ((s.insert_back j c).getD s).at i = some v := by
  unfold NodeStoreCompact.insert_back
  by_cases hj : j < s.mLatpLons.length
  · simp only [if_pos hj, Option.getD_some]
    unfold NodeStoreCompact.at at h ⊢
    rw [List.getElem?_set_ne hij]
    exact h
  · simp only [if_neg hj, Option.getD_none]
    exact h

theorem NodeStoreCompact.at_insertSeq_avoiding (s : NodeStoreCompact) (i : NodeID) (v : LatpLon)
    (ops : List (NodeID × LatpLon)) (h : s.at i = some v)
    (havoid : ∀ p ∈ ops, p.1 ≠ i) : (s.insertSeq ops).at i = some v := by
  induction ops generalizing s with
  | nil => exact h
  | cons p rest ih =>
    exact ih _ (NodeStoreCompact.at_insert_other s i p.1 v p.2 h
      (havoid p (List.mem_cons_self p rest)))
      (fun q hq => havoid q (List.mem_cons_of_mem p hq))

/-- Inserting at a fresh key of the sparse node store makes it readable. -/
theorem NodeStore.at_insert_fresh (s : NodeStore) (i : NodeID) (c : LatpLon)
    (h : s.at i = none) : (s.insert_back i c).at i = some c := by
  unfold NodeStore.at NodeStore.insert_back
  unfold NodeStore.at at h
  rw [assocEmplace_fresh _ _ _ h]
  exact assocFind_append_self _ _ _ h

/-- A successful compact `insert_back` makes its slot readable. -/
theorem NodeStoreCompact.at_insert_self (sc sc₁ : NodeStoreCompact) (i : NodeID)
    (c : LatpLon) (hc : sc.insert_back i c = some sc₁) : sc₁.at i = some c := by
  unfold NodeStoreCompact.insert_back at hc
  by_cases hi : i < sc.mLatpLons.length
  · rw [if_pos hi] at hc
    cases hc
    unfold NodeStoreCompact.at
    exact List.getElem?_set_self hi
  · rw [if_neg hi] at hc
    cases hc

/-- The ways of the two-way stitching scenario with a shared endpoint:
way 100 is a closed square-ish ring, way 101 an open fragment touching it. -/
def waysC1 : WayID → Option (List NodeID) := fun i =>
  if i = 100 then some [1, 2, 3, 1] else if i = 101 then some [1, 5] else none

/-- The ways of scenario 2 of the spec: way 200 = [1,2,3], way 201 = [3,4,1]. -/
def waysC2 : WayID → Option (List NodeID) := fun i =>
  if i = 200 then some [1, 2, 3] else if i = 201 then some [3, 4, 1] else none

/-- C1 (counterexample): the chain `[1,2,3,1]` is closed, yet `tryJoin`
appends the way `[1,5]` to it, and the full stitching run on ways
100 = [1,2,3,1], 101 = [1,5] reaches exactly that state: the guard at
osm_store.h:640 tests the candidate way's endpoints (`jFirst==jLast`),
never the chain's, so a closed chain does accept further ways. -/
theorem c1_closed_chain_accepts_way :
    isClosed [1, 2, 3, 1] = true
    ∧ tryJoin [1, 5] [[1, 2, 3, 1]] = some [[1, 2, 3, 1, 1, 5]]
    ∧ mergeMultiPolygonWays waysC1 [100, 101] ⟨[], []⟩
        = some ⟨[[1, 2, 3, 1, 1, 5]], [101, 100]⟩ := by decide

/-- C1 (amended): the `jFirst==jLast` guard of the join loop skips closed
WAYS, not closed chains: a way whose first node equals its last node is
never appended or prepended to any chain by `tryJoin`. -/
theorem c1_closed_way_never_joined (nodes : List NodeID) (results : List (List NodeID))
    (h : chainFirst nodes = chainLast nodes) : tryJoin nodes results = none := by
  induction results with
  | nil => rfl
  | cons ot rest ih =>
    unfold tryJoin
    simp only [if_pos h, ih]

/-- C1 witness: the amended guard at a concrete closed way. -/
theorem c1_closed_way_never_joined_witness :
    chainFirst [1, 2, 1] = chainLast [1, 2, 1] ∧ tryJoin [1, 2, 1] [[3, 4]] = none :=
  ⟨by decide, c1_closed_way_never_joined [1, 2, 1] [[3, 4]] (by decide)⟩

/-- C2 (counterexample): on ways 200 = [1,2,3] and 201 = [3,4,1] the
stitching produces the chain `[1,2,3,3,4,1]` — join case 1 inserts the
full node range (osm_store.h:643), so the shared endpoint 3 appears twice
and the assembled ring is not `[1,2,3,4,1]`. -/
theorem c2_shared_endpoint_duplicated :
    mergeMultiPolygonWays waysC2 [200, 201] ⟨[], []⟩
      = some ⟨[[1, 2, 3, 3, 4, 1]], [201, 200]⟩
    ∧ [[1, 2, 3, 3, 4, 1]] ≠ ([[1, 2, 3, 4, 1]] : List (List NodeID)) := by decide

/-- C2 (amended): in join case 1 (`C.last == N.first`, way not closed) the
way is appended to the chain in full, shared endpoint included, so that
endpoint appears twice; on the spec's scenario the stitched outer ring
visits 1,2,3,3,4,1. -/
theorem c2_join_case1_appends_full (ot nodes : List NodeID) (rest : List (List NodeID))
    (hopen : chainFirst nodes ≠ chainLast nodes)
    (hmatch : chainLast ot = chainFirst nodes) :
    tryJoin nodes (ot :: rest) = some ((ot ++ nodes) :: rest)
    ∧ mergeMultiPolygonWays waysC2 [200, 201] ⟨[], []⟩
        = some ⟨[[1, 2, 3, 3, 4, 1]], [201, 200]⟩ := by
  constructor
  · unfold tryJoin
    simp only [if_neg hopen, if_pos hmatch]
  · decide

/-- C2 witness: join case 1 at the concrete ways of the scenario. -/
theorem c2_join_case1_appends_full_witness :
    chainFirst [3, 4, 1] ≠ chainLast [3, 4, 1]
    ∧ chainLast [1, 2, 3] = chainFirst [3, 4, 1]
    ∧ (tryJoin [3, 4, 1] [[1, 2, 3]] = some [[1, 2, 3, 3, 4, 1]]
        ∧ mergeMultiPolygonWays waysC2 [200, 201] ⟨[], []⟩
            = some ⟨[[1, 2, 3, 3, 4, 1]], [201, 200]⟩) :=
  ⟨by decide, by decide,
    c2_join_case1_appends_full [1, 2, 3] [3, 4, 1] [] (by decide) (by decide)⟩

/-- C3 (counterexample): a compact store that reserved one node slot still
reports `size() = 1` after `clear()` — `NodeStoreCompact::clear` zero-fills
the vector without shrinking it (osm_store.h:172). -/
theorem c3_compact_clear_size_not_zero :
    (OSMStoreImplCompact.clear ⟨⟨[LatpLon.zero]⟩, ⟨[]⟩, ⟨[]⟩, 1024000000⟩).nodes.size = 1
    ∧ (1 : Nat) ≠ 0 := by decide

/-- C3 (amended): after `clear()` the way and relation stores (and the
sparse node store) have size 0, while the compact node store keeps its
reserved length with every slot zeroed; the arena size field is untouched
in both variants. -/
theorem c3_clear_spec (sc : OSMStoreImplCompact) (ss : OSMStoreImplSparse) :
    sc.clear.nodes.size = sc.nodes.size
    ∧ sc.clear.ways.size = 0
    ∧ sc.clear.relations.size = 0
    ∧ sc.clear.map_size = sc.map_size
    ∧ ss.clear.nodes.size = 0
    ∧ ss.clear.ways.size = 0
    ∧ ss.clear.relations.size = 0
    ∧ ss.clear.map_size = ss.map_size := by
  refine ⟨?_, rfl, rfl, rfl, rfl, rfl, rfl, rfl⟩
  simp [OSMStoreImplCompact.clear, NodeStoreCompact.clear, NodeStoreCompact.size]

/-- C4 (counterexample): in the sparse store, inserting twice at id 0
leaves the FIRST coordinate pair readable — `emplace` never overwrites
(osm_store.h:111) — so the most recent insert does not win. -/
theorem c4_second_insert_does_not_win :
    (NodeStore.insert_back (NodeStore.insert_back ⟨[]⟩ 0 ⟨1, 2⟩) 0 ⟨3, 4⟩).at 0
      = some ⟨1, 2⟩
    ∧ some (⟨1, 2⟩ : LatpLon) ≠ some (⟨3, 4⟩ : LatpLon) := by decide

/-- C4 (amended): in the sparse store the FIRST insert wins: for a fresh
id, after `insert(i, c1)` then `insert(i, c2)`, lookup returns `c1`. -/
theorem c4_first_insert_wins (s : NodeStore) (i : NodeID) (c₁ c₂ : LatpLon)
    (h : s.at i = none) :
    ((s.insert_back i c₁).insert_back i c₂).at i = some c₁ :=
  NodeStore.at_insert_back _ i i c₁ c₂ (NodeStore.at_insert_fresh s i c₁ h)

/-- C4 witness: the amended first-insert-wins law at id 0 of the empty store. -/
theorem c4_first_insert_wins_witness :
    NodeStore.at ⟨[]⟩ 0 = none
    ∧ ((NodeStore.insert_back (NodeStore.insert_back ⟨[]⟩ 0 ⟨5, 6⟩) 0 ⟨7, 8⟩).at 0
        = some ⟨5, 6⟩) :=
  ⟨by decide, c4_first_insert_wins ⟨[]⟩ 0 ⟨5, 6⟩ ⟨7, 8⟩ (by decide)⟩

/-- C5 (counterexample): in the compact store `insert_back` overwrites
(`(*mLatpLons)[i] = coord`, osm_store.h:165): after a successful
`insert_node(0, (1,1))` a further insert at the same id changes the
lookup, so the claim fails in the compact variant. -/
theorem c5_compact_later_insert_overwrites :
    NodeStoreCompact.insert_back ⟨[LatpLon.zero]⟩ 0 ⟨1, 1⟩ = some ⟨[⟨1, 1⟩]⟩
    ∧ (NodeStoreCompact.insertSeq ⟨[⟨1, 1⟩]⟩ [(0, ⟨2, 2⟩)]).at 0 = some ⟨2, 2⟩
    ∧ some (⟨2, 2⟩ : LatpLon) ≠ some (⟨1, 1⟩ : LatpLon) := by decide

/-- C5 (amended): the insert-then-lookup law holds in the sparse variant
for a previously absent id under ANY later inserts, and in the compact
variant after a successful insert provided no later insert targets the
same id. -/
theorem c5_lookup_stable (s : NodeStore) (sc sc₁ : NodeStoreCompact) (i : NodeID)
    (c : LatpLon) (ops₁ ops₂ : List (NodeID × LatpLon))
    (hfresh : s.at i = none)
    (hc : sc.insert_back i c = some sc₁)
    (havoid : ∀ p ∈ ops₂, p.1 ≠ i) :
    ((s.insert_back i c).insertSeq ops₁).at i = some c
    ∧ (sc₁.insertSeq ops₂).at i = some c :=
  ⟨NodeStore.at_insertSeq _ i c ops₁ (NodeStore.at_insert_fresh s i c hfresh),
    NodeStoreCompact.at_insertSeq_avoiding _ i c ops₂
      (NodeStoreCompact.at_insert_self sc sc₁ i c hc) havoid⟩

/-- C5 witness: both variants at id 0 with one later insert at id 1. -/
theorem c5_lookup_stable_witness :
    NodeStore.at ⟨[]⟩ 0 = none
    ∧ NodeStoreCompact.insert_back ⟨[LatpLon.zero, LatpLon.zero]⟩ 0 ⟨1, 1⟩
        = some ⟨[⟨1, 1⟩, LatpLon.zero]⟩
    ∧ (∀ p ∈ [((1 : NodeID), (⟨9, 9⟩ : LatpLon))], p.1 ≠ 0)
    ∧ ((NodeStore.insert_back ⟨[]⟩ 0 ⟨1, 1⟩).insertSeq
          [((1 : NodeID), (⟨9, 9⟩ : LatpLon))]).at 0 = some ⟨1, 1⟩
    ∧ (NodeStoreCompact.insertSeq ⟨[⟨1, 1⟩, LatpLon.zero]⟩
          [((1 : NodeID), (⟨9, 9⟩ : LatpLon))]).at 0 = some ⟨1, 1⟩ := by
  refine ⟨by decide, by decide, by decide, ?_, ?_⟩
  · exact (c5_lookup_stable ⟨[]⟩ ⟨[LatpLon.zero, LatpLon.zero]⟩ ⟨[⟨1, 1⟩, LatpLon.zero]⟩
      0 ⟨1, 1⟩ [((1 : NodeID), (⟨9, 9⟩ : LatpLon))] [((1 : NodeID), (⟨9, 9⟩ : LatpLon))]
      (by decide) (by decide) (by decide)).1
  · exact (c5_lookup_stable ⟨[]⟩ ⟨[LatpLon.zero, LatpLon.zero]⟩ ⟨[⟨1, 1⟩, LatpLon.zero]⟩
      0 ⟨1, 1⟩ [((1 : NodeID), (⟨9, 9⟩ : LatpLon))] [((1 : NodeID), (⟨9, 9⟩ : LatpLon))]
      (by decide) (by decide) (by decide)).2

/-- `fillPoints` succeeds when every node id of the list is present. -/
theorem fillPoints_isSome (f : NodeID → Option LatpLon) (l : List NodeID)
    (h : ∀ i ∈ l, (f i).isSome) : ∃ pts, fillPoints f l = some pts := by
  induction l with
  | nil => exact ⟨[], rfl⟩
  | cons i rest ih =>
    obtain ⟨ll, hll⟩ := Option.isSome_iff_exists.mp (h i (List.mem_cons_self i rest))
    obtain ⟨pts, hpts⟩ := ih (fun j hj => h j (List.mem_cons_of_mem i hj))
    exact ⟨_, by rw [fillPoints, hll, hpts]⟩

/-- What `fillPoints` produces: one point per node id, in order, each the
looked-up coordinate pair divided by 10⁷ (lon first). -/
theorem fillPoints_spec (f : NodeID → Option LatpLon) (l : List NodeID)
    (pts : List (ℚ × ℚ)) (h : fillPoints f l = some pts) :
    pts.length = l.length
    ∧ ∀ (k : Nat) i, l[k]? = some i → ∃ ll, f i = some ll
        ∧ pts[k]? = some ((ll.lon : ℚ) / 10000000, (ll.latp : ℚ) / 10000000) := by
  induction l generalizing pts with
  | nil =>
    cases h
    exact ⟨rfl, fun k i hk => by simp at hk⟩
  | cons j rest ih =>
    rw [fillPoints] at h
    cases hll : f j with
    | none => rw [hll] at h; cases h
    | some ll =>
      rw [hll] at h
      cases hrest : fillPoints f rest with
      | none => rw [hrest] at h; cases h
      | some qts =>
        rw [hrest] at h
        cases h
        obtain ⟨hlen, hk⟩ := ih qts hrest
        refine ⟨by simpa using hlen, fun k i hki => ?_⟩
        cases k with
        | zero =>
          simp at hki
          subst hki
          exact ⟨ll, hll, by simp⟩
        | succ k₂ =>
          simp only [List.getElem?_cons_succ] at hki ⊢
          exact hk k₂ i hki

/-- C6: round trip for a freshly inserted way whose node ids are all
present: `insert_way` stores `N`, and `way_as_linestring` yields `|N|`
points in input order, the k-th being the looked-up `(lon, latp)` of
`N[k]`, each coordinate divided by 10⁷. -/
theorem c6_way_linestring_roundtrip (ws : WayStore) (wid : WayID) (N : List NodeID)
    (nodesAt : NodeID → Option LatpLon)
    (hfresh : ws.at wid = none)
    (hpresent : ∀ i ∈ N, (nodesAt i).isSome) :
    (ws.insert_back wid N).2 = N
    ∧ ∃ pts, nodeListLinestring nodesAt (ws.insert_back wid N).2 = some pts
        ∧ pts.length = N.length
        ∧ ∀ (k : Nat) i, N[k]? = some i → ∃ ll, nodesAt i = some ll
            ∧ pts[k]? = some ((ll.lon : ℚ) / 10000000, (ll.latp : ℚ) / 10000000) := by
  have hstored : (ws.insert_back wid N).2 = N := by
    unfold WayStore.insert_back
    unfold WayStore.at at hfresh
    rw [assocEmplace_fresh _ _ _ hfresh]
  refine ⟨hstored, ?_⟩
  obtain ⟨pts, hpts⟩ := fillPoints_isSome nodesAt N hpresent
  obtain ⟨hlen, hk⟩ := fillPoints_spec nodesAt N pts hpts
  exact ⟨pts, by rw [nodeListLinestring, hstored]; exact hpts, hlen, hk⟩

/-- C6 witness: a two-node way over a concrete store. -/
theorem c6_way_linestring_roundtrip_witness :
    WayStore.at ⟨[]⟩ 4 = none
    ∧ (∀ i ∈ [0, 1], ((fun j => if j = 0 then some (⟨20000000, 10000000⟩ : LatpLon)
        else if j = 1 then some ⟨7, -5⟩ else none) i).isSome)
    ∧ ((WayStore.insert_back ⟨[]⟩ 4 [0, 1]).2 = [0, 1]
        ∧ ∃ pts, nodeListLinestring (fun j => if j = 0 then some ⟨20000000, 10000000⟩
            else if j = 1 then some ⟨7, -5⟩ else none)
            (WayStore.insert_back ⟨[]⟩ 4 [0, 1]).2 = some pts
          ∧ pts.length = [0, 1].length
          ∧ ∀ (k : Nat) i, ([0, 1] : List NodeID)[k]? = some i →
              ∃ ll, (fun j => if j = 0 then some (⟨20000000, 10000000⟩ : LatpLon)
                  else if j = 1 then some ⟨7, -5⟩ else none) i = some ll
                ∧ pts[k]? = some ((ll.lon : ℚ) / 10000000, (ll.latp : ℚ) / 10000000)) :=
  ⟨by decide, by decide,
    c6_way_linestring_roundtrip ⟨[]⟩ 4 [0, 1]
      (fun j => if j = 0 then some ⟨20000000, 10000000⟩
        else if j = 1 then some ⟨7, -5⟩ else none)
      (by decide) (by decide)⟩

/-- The retry loop never surfaces `outOfSpace` once the (doubling)
capacity can reach a level at which the operation stops running out of
space. -/
theorem perform_no_outOfSpace {α : Type} (op : Nat → Except MmapError α) (n : Nat) :
    ∀ fuel map_size, (∀ c, n ≤ c → op c ≠ .error .outOfSpace) →
    n ≤ 2 ^ fuel * map_size →
    perform_mmap_operation (fuel + 1) op map_size ≠ .error MmapError.outOfSpace := by
  intro fuel
  induction fuel with
  | zero =>
    intro map_size hop hfuel
    rw [perform_mmap_operation]
    cases hres : op map_size with
    | ok a => simp
    | error e =>
      cases e with
      | outOfSpace =>
        exact absurd hres (hop map_size (by simpa using hfuel))
      | other k => simp
  | succ fuel ih =>
    intro map_size hop hfuel
    rw [perform_mmap_operation]
    cases hres : op map_size with
    | ok a => simp
    | error e =>
      cases e with
      | outOfSpace =>
        exact ih (2 * map_size) hop (by rw [pow_succ, mul_assoc] at hfuel; exact hfuel)
      | other k => simp

/-- C7: the retry loop of `perform_mmap_operation` catches exactly
`outOfSpace`: it never surfaces it (given the operation stops running out
of space at some capacity the doubling can reach), it returns the result
unchanged on success, it propagates every other error uncaught, and on
`outOfSpace` it retries the same operation at double the arena size. -/
theorem c7_retry_loop_spec {α : Type} (op : Nat → Except MmapError α)
    (map_size n fuel : Nat)
    (hop : ∀ c, n ≤ c → op c ≠ .error .outOfSpace)
    (hfuel : n ≤ 2 ^ fuel * map_size) :
    perform_mmap_operation (fuel + 1) op map_size ≠ .error MmapError.outOfSpace
    ∧ (∀ a, op map_size = .ok a →
        perform_mmap_operation (fuel + 1) op map_size = .ok (a, map_size))
    ∧ (∀ k, op map_size = .error (.other k) →
        perform_mmap_operation (fuel + 1) op map_size = .error (.other k))
    ∧ (op map_size = .error .outOfSpace →
        perform_mmap_operation (fuel + 1) op map_size
          = perform_mmap_operation fuel op (2 * map_size)) := by
  refine ⟨perform_no_outOfSpace op n fuel map_size hop hfuel, ?_, ?_, ?_⟩
  · intro a ha
    rw [perform_mmap_operation, ha]
  · intro k hk
    rw [perform_mmap_operation, hk]
  · intro hoos
    rw [perform_mmap_operation, hoos]

/-- The concrete allocation used by the C7 witness: succeeds from
capacity 5 up, runs out of space below. -/
def opC7 : Nat → Except MmapError Nat := fun c =>
  if 5 ≤ c then .ok 0 else .error .outOfSpace

/-- C7 witness: the retry spec at `opC7`, initial size 1 and 3 doublings. -/
theorem c7_retry_loop_spec_witness :
    (∀ c, 5 ≤ c → opC7 c ≠ .error .outOfSpace)
    ∧ 5 ≤ 2 ^ 3 * 1
    ∧ (perform_mmap_operation 4 opC7 1 ≠ .error MmapError.outOfSpace
        ∧ (∀ a, opC7 1 = .ok a → perform_mmap_operation 4 opC7 1 = .ok (a, 1))
        ∧ (∀ k, opC7 1 = .error (.other k)
            → perform_mmap_operation 4 opC7 1 = .error (.other k))
        ∧ (opC7 1 = .error .outOfSpace
            → perform_mmap_operation 4 opC7 1 = perform_mmap_operation 3 opC7 (2 * 1))) :=
  ⟨fun c hc => by simp [opC7, hc], by norm_num,
    c7_retry_loop_spec opC7 1 5 3 (fun c hc => by simp [opC7, hc]) (by norm_num)⟩

/-- A single merge step either leaves the state and counter unchanged, or
marks a previously unprocessed way done and bumps the counter. -/
theorem mergeStep_cases (ways : WayID → Option (List NodeID)) (s : MergeState) (a : Nat)
    (i : WayID) (s₂ : MergeState) (a₂ : Nat)
    (h : mergeStep ways s a i = some (s₂, a₂)) :
    (s₂ = s ∧ a₂ = a) ∨ (i ∉ s.done ∧ s₂.done = i :: s.done ∧ a₂ = a + 1) := by
  unfold mergeStep at h
  by_cases hdone : i ∈ s.done
  · rw [if_pos hdone] at h
    cases h
    exact Or.inl ⟨rfl, rfl⟩
  · rw [if_neg hdone] at h
    cases hw : ways i with
    | none => rw [hw] at h; cases h
    | some way =>
      rw [hw] at h
      dsimp only at h
      by_cases hcl : isClosed way
      · rw [if_pos hcl] at h
        cases h
        exact Or.inr ⟨hdone, rfl, rfl⟩
      · rw [if_neg hcl] at h
        cases hj : tryJoin way s.results with
        | some results₂ =>
          rw [hj] at h
          cases h
          exact Or.inr ⟨hdone, rfl, rfl⟩
        | none =>
          rw [hj] at h
          cases h
          exact Or.inl ⟨rfl, rfl⟩

/-- A merge step only fails when the way id is absent from the way store. -/
theorem mergeStep_isSome (ways : WayID → Option (List NodeID)) (s : MergeState) (a : Nat)
    (i : WayID) (h : (ways i).isSome) : (mergeStep ways s a i).isSome := by
  unfold mergeStep
  by_cases hdone : i ∈ s.done
  · rw [if_pos hdone]; rfl
  · rw [if_neg hdone]
    cases hw : ways i with
    | none => rw [hw] at h; cases h
    | some way =>
      dsimp only
      by_cases hcl : isClosed way
      · rw [if_pos hcl]; rfl
      · rw [if_neg hcl]
        cases hj : tryJoin way s.results with
        | some results₂ => rfl
        | none => rfl

/-- Over one pass, the done set only grows, the counter only grows, and a
strictly larger counter means some way of the list moved from undone to
done. -/
theorem mergePass_spec (ways : WayID → Option (List NodeID)) :
    ∀ (l : List WayID) (s : MergeState) (a : Nat) (s₂ : MergeState) (a₂ : Nat),
    mergePass ways l s a = some (s₂, a₂) →
    (∀ j, j ∈ s.done → j ∈ s₂.done) ∧ a ≤ a₂
    ∧ (a < a₂ → ∃ j, j ∈ l ∧ j ∉ s.done ∧ j ∈ s₂.done) := by
  intro l
  induction l with
  | nil =>
    intro s a s₂ a₂ h
    cases h
    exact ⟨fun j hj => hj, Nat.le_refl _, fun hlt => absurd hlt (Nat.lt_irrefl _)⟩
  | cons i rest ih =>
    intro s a s₂ a₂ h
    rw [mergePass] at h
    cases hstep : mergeStep ways s a i with
    | none => rw [hstep] at h; cases h
    | some p =>
      obtain ⟨s₁, a₁⟩ := p
      rw [hstep] at h
      obtain ⟨hmono, hle, hstrict⟩ := ih s₁ a₁ s₂ a₂ h
      rcases mergeStep_cases ways s a i s₁ a₁ hstep with ⟨hs, ha⟩ | ⟨hnd, hdone, ha⟩
      · subst hs; subst ha
        exact ⟨hmono, hle, fun hlt =>
          (hstrict hlt).imp fun j hj => ⟨List.mem_cons_of_mem _ hj.1, hj.2⟩⟩
      · subst ha
        refine ⟨?_, by omega, ?_⟩
        · intro j hj
          exact hmono j (by rw [hdone]; exact List.mem_cons_of_mem i hj)
        · intro _
          exact ⟨i, List.mem_cons_self i rest, hnd,
            hmono i (by rw [hdone]; exact List.mem_cons_self i s.done)⟩

/-- A pass succeeds whenever every listed way id is in the way store. -/
theorem mergePass_isSome (ways : WayID → Option (List NodeID)) :
    ∀ (l : List WayID) (s : MergeState) (a : Nat),
    (∀ i ∈ l, (ways i).isSome) → (mergePass ways l s a).isSome := by
  intro l
  induction l with
  | nil => intro s a _; rfl
  | cons i rest ih =>
    intro s a h
    rw [mergePass]
    cases hstep : mergeStep ways s a i with
    | none =>
      have := mergeStep_isSome ways s a i (h i (List.mem_cons_self i rest))
      rw [hstep] at this
      cases this
    | some p =>
      obtain ⟨s₁, a₁⟩ := p
      exact ih s₁ a₁ fun j hj => h j (List.mem_cons_of_mem i hj)

/-- The seeding loop either adds nothing (state unchanged) or marks one
previously undone way done. -/
theorem mergeSeed_spec (ways : WayID → Option (List NodeID)) :
    ∀ (l : List WayID) (s : MergeState) (s₂ : MergeState) (a₂ : Nat),
    mergeSeed ways l s = some (s₂, a₂) →
    (a₂ = 0 → s₂ = s)
    ∧ (a₂ ≠ 0 → ∃ j, j ∈ l ∧ j ∉ s.done ∧ s₂.done = j :: s.done) := by
  intro l
  induction l with
  | nil =>
    intro s s₂ a₂ h
    cases h
    exact ⟨fun _ => rfl, fun h0 => absurd rfl h0⟩
  | cons i rest ih =>
    intro s s₂ a₂ h
    rw [mergeSeed] at h
    by_cases hdone : i ∈ s.done
    · rw [if_pos hdone] at h
      obtain ⟨h0, hne⟩ := ih s s₂ a₂ h
      exact ⟨h0, fun hn => (hne hn).imp fun j hj => ⟨List.mem_cons_of_mem _ hj.1, hj.2⟩⟩
    · rw [if_neg hdone] at h
      cases hw : ways i with
      | none => rw [hw] at h; cases h
      | some way =>
        rw [hw] at h
        cases h
        exact ⟨fun h0 => absurd h0 Nat.one_ne_zero,
          fun _ => ⟨i, List.mem_cons_self i rest, hdone, rfl⟩⟩

/-- Seeding succeeds whenever every listed way id is in the way store. -/
theorem mergeSeed_isSome (ways : WayID → Option (List NodeID)) :
    ∀ (l : List WayID) (s : MergeState),
    (∀ i ∈ l, (ways i).isSome) → (mergeSeed ways l s).isSome := by
  intro l
  induction l with
  | nil => intro s _; rfl
  | cons i rest ih =>
    intro s h
    rw [mergeSeed]
    by_cases hdone : i ∈ s.done
    · rw [if_pos hdone]
      exact ih s fun j hj => h j (List.mem_cons_of_mem i hj)
    · rw [if_neg hdone]
      cases hw : ways i with
      | none =>
        have := h i (List.mem_cons_self i rest)
        rw [hw] at this
        cases this
      | some way => rfl

/-- The number of listed way ids not yet marked done — the loop measure. -/
def undoneCount (ids done : List WayID) : Nat :=
  (ids.toFinset \ done.toFinset).card

theorem undoneCount_mono (ids done done₂ : List WayID)
    (h : ∀ j, j ∈ done → j ∈ done₂) : undoneCount ids done₂ ≤ undoneCount ids done :=
  Finset.card_le_card (Finset.sdiff_subset_sdiff (Finset.Subset.refl _)
    (fun x hx => List.mem_toFinset.mpr (h x (List.mem_toFinset.mp hx))))

theorem undoneCount_strict (ids done done₂ : List WayID)
    (h : ∀ j, j ∈ done → j ∈ done₂) (j : WayID) (hjids : j ∈ ids) (hjnd : j ∉ done)
    (hjd : j ∈ done₂) : undoneCount ids done₂ < undoneCount ids done := by
  apply Finset.card_lt_card
  rw [Finset.ssubset_iff_of_subset (Finset.sdiff_subset_sdiff (Finset.Subset.refl _)
    (fun x hx => List.mem_toFinset.mpr (h x (List.mem_toFinset.mp hx))))]
  refine ⟨j, ?_, ?_⟩
  · simp only [Finset.mem_sdiff, List.mem_toFinset]
    exact ⟨hjids, hjnd⟩
  · simp only [Finset.mem_sdiff, List.mem_toFinset]
    intro hc
    exact hc.2 hjd

/-- The do/while loop completes once the fuel exceeds the number of
undone ways: every iteration but the last marks at least one way done. -/
theorem mergeLoop_isSome (ways : WayID → Option (List NodeID)) (ids : List WayID)
    (hids : ∀ i ∈ ids, (ways i).isSome) :
    ∀ (fuel : Nat) (s : MergeState), undoneCount ids s.done < fuel →
    (mergeLoop ways ids fuel s).isSome := by
  intro fuel
  induction fuel with
  | zero => intro s h; exact absurd h (Nat.not_lt_zero _)
  | succ fuel ih =>
    intro s hcount
    rw [mergeLoop]
    have hpass := mergePass_isSome ways ids s 0 hids
    obtain ⟨p, hp⟩ := Option.isSome_iff_exists.mp hpass
    obtain ⟨s₁, a₁⟩ := p
    rw [hp]
    dsimp only
    obtain ⟨hmono₁, _, hstrict₁⟩ := mergePass_spec ways ids s 0 s₁ a₁ hp
    by_cases ha₁ : a₁ = 0
    · rw [if_pos ha₁]
      have hseed := mergeSeed_isSome ways ids s₁ hids
      obtain ⟨q, hq⟩ := Option.isSome_iff_exists.mp hseed
      obtain ⟨s₂, a₂⟩ := q
      rw [hq]
      dsimp only
      obtain ⟨h0, hne⟩ := mergeSeed_spec ways ids s₁ s₂ a₂ hq
      by_cases ha₂ : a₂ = 0
      · rw [if_pos ha₂]; rfl
      · rw [if_neg ha₂]
        obtain ⟨j, hjids, hjnd, hjdone⟩ := hne ha₂
        have hlt : undoneCount ids s₂.done < undoneCount ids s₁.done :=
          undoneCount_strict ids s₁.done s₂.done
            (fun x hx => by rw [hjdone]; exact List.mem_cons_of_mem j hx)
            j hjids hjnd (by rw [hjdone]; exact List.mem_cons_self j s₁.done)
        have hle : undoneCount ids s₁.done ≤ undoneCount ids s.done :=
          undoneCount_mono ids s.done s₁.done hmono₁
        exact ih s₂ (by omega)
    · rw [if_neg ha₁]
      obtain ⟨j, hjids, hjnd, hjdone⟩ := hstrict₁ (Nat.pos_of_ne_zero ha₁)
      have hlt : undoneCount ids s₁.done < undoneCount ids s.done :=
        undoneCount_strict ids s.done s₁.done hmono₁ j hjids hjnd hjdone
      exact ih s₁ (by omega)

/-- C8: `mergeMultiPolygonWays` terminates for every input sequence of way
ids, provided every referenced id is in the way store: the embedded loop,
given the fuel `ids.length + 1` used by the wrapper, returns a result. -/
theorem c8_merge_terminates (ways : WayID → Option (List NodeID)) (ids : List WayID)
    (s : MergeState) (h : ∀ i ∈ ids, (ways i).isSome) :
    (mergeMultiPolygonWays ways ids s).isSome := by
  apply mergeLoop_isSome ways ids h
  have h1 : undoneCount ids s.done ≤ ids.toFinset.card :=
    Finset.card_le_card (Finset.sdiff_subset)
  have h2 : ids.toFinset.card ≤ ids.length := ids.toFinset_card_le
  omega

/-- The ways of the C8 witness: three open fragments forming a triangle. -/
def waysC8 : WayID → Option (List NodeID) := fun i =>
  if i = 1 then some [1, 2] else if i = 2 then some [2, 3]
  else if i = 3 then some [3, 1] else none

/-- C8 witness: the stitching run on the three-fragment triangle returns. -/
theorem c8_merge_terminates_witness :
    (∀ i ∈ ([1, 2, 3] : List WayID), (waysC8 i).isSome)
    ∧ (mergeMultiPolygonWays waysC8 [1, 2, 3] ⟨[], []⟩).isSome :=
  ⟨by decide, c8_merge_terminates waysC8 [1, 2, 3] ⟨[], []⟩ (by decide)⟩

/-- C9: `OSMStore::wayIsClosed` short-circuits on `way.empty()` and
returns `true` for an empty node sequence (osm_store.h:500). -/
theorem c9_empty_way_is_closed : wayIsClosed [] = true := rfl

/-- C10: re-inserting an already present way id is a no-op — `emplace`
keeps the stored map and the returned reference is the first-inserted
node sequence (osm_store.h:229). -/
theorem c10_reinsert_is_noop (ws : WayStore) (i : WayID) (old nodes : List NodeID)
    (h : ws.at i = some old) : ws.insert_back i nodes = (ws, old) := by
  unfold WayStore.insert_back
  unfold WayStore.at at h
  rw [assocEmplace_found _ _ nodes _ h]

/-- C10 witness: re-inserting way 7 with a different node list keeps the
stored state and returns the original sequence. -/
theorem c10_reinsert_is_noop_witness :
    WayStore.at ⟨[(7, [1, 2, 3])]⟩ 7 = some [1, 2, 3]
    ∧ WayStore.insert_back ⟨[(7, [1, 2, 3])]⟩ 7 [9, 9]
        = (⟨[(7, [1, 2, 3])]⟩, [1, 2, 3]) :=
  ⟨by decide, c10_reinsert_is_noop ⟨[(7, [1, 2, 3])]⟩ 7 [1, 2, 3] [9, 9] (by decide)⟩
